import Mathlib

/-!
Verification development for the NTRTsim structure-to-model builder.

The two repository source files (TetraSpineStaticModel.cpp and
TensegrityModel.cpp) are shallowly embedded below.  The supporting library
types they use (tgStructure, tgBuildSpec, tgStructureInfo, tgModel,
BaseSpineModelLearning) are not part of the repository snapshot, so they are
modelled from the specification where indicated.  Machine doubles are
modelled as rationals; the claims settled here are independent of rounding.
-/

set_option autoImplicit false

/-- A 3-d coordinate (btVector3), with exact rational components. -/
structure Vec3 where
  x : ℚ
  y : ℚ
  z : ℚ
deriving DecidableEq, Repr

/-- Componentwise vector addition. -/
def addV (a b : Vec3) : Vec3 := ⟨a.x + b.x, a.y + b.y, a.z + b.z⟩

/-- Scaling by a natural scalar, as in the per-segment offset (i + 1) * offset. -/
def smulV (n : Nat) (v : Vec3) : Vec3 := ⟨n * v.x, n * v.y, n * v.z⟩

/-- Componentwise subtraction, used for marker offsets from a center of mass. -/
def subV (a b : Vec3) : Vec3 := ⟨a.x - b.x, a.y - b.y, a.z - b.z⟩

/-- Modelled from the spec: a Node is a 3-d coordinate plus a set of string
tags (tgNode). -/
structure TgNode where
  pos : Vec3
  tags : List String
deriving DecidableEq, Repr

/-- Modelled from the spec: an Edge (tgPair) stores the coordinates of its two
endpoints plus its own tag set. -/
structure TgPair where
  fst : Vec3
  snd : Vec3
  tags : List String
deriving DecidableEq, Repr

/-- Modelled from the spec: a Graph (tgStructure) is an ordered sequence of
Nodes, an ordered sequence of Edges, its own tag set, and an ordered sequence
of child Graphs. -/
inductive TgStructure where
  | mk : List TgNode → List TgPair → List String → List TgStructure → TgStructure

/-- The nodes of a structure, in insertion order. -/
def TgStructure.nodes : TgStructure → List TgNode
  | .mk ns _ _ _ => ns

/-- The pairs (edges) of a structure, in insertion order. -/
def TgStructure.pairs : TgStructure → List TgPair
  | .mk _ ps _ _ => ps

/-- The structure's own tag set. -/
def TgStructure.tags : TgStructure → List String
  | .mk _ _ ts _ => ts

/-- The child structures, in insertion order. -/
def TgStructure.children : TgStructure → List TgStructure
  | .mk _ _ _ cs => cs

/-- The empty structure, as produced by the tgStructure default constructor. -/
def emptyS : TgStructure := .mk [] [] [] []

/-- tgStructure::addNode: append a node, preserving insertion order. -/
def addNodeS (s : TgStructure) (n : TgNode) : TgStructure :=
  .mk (s.nodes ++ [n]) s.pairs s.tags s.children

/-- Translate a node by a vector (tags unchanged). -/
def moveNode (v : Vec3) (n : TgNode) : TgNode := ⟨addV n.pos v, n.tags⟩

/-- Translate both endpoints of a pair by a vector (tags unchanged). -/
def movePair (v : Vec3) (p : TgPair) : TgPair := ⟨addV p.fst v, addV p.snd v, p.tags⟩

/-- Modelled from the spec: tgStructure::move applies a rigid translation to
all own nodes and edges and recursively to all child graphs. -/
def moveS (v : Vec3) : TgStructure → TgStructure
  | .mk ns ps ts cs =>
      .mk (ns.map (moveNode v)) (ps.map (movePair v)) ts
        (cs.attach.map (fun c => moveS v c.1))
decreasing_by
  rename_i ps ts cs
  cases c with
  | mk c hc =>
    have h1 := List.sizeOf_lt_of_mem hc
    have h2 : sizeOf (TgStructure.mk ns ps ts cs)
        = 1 + sizeOf ns + sizeOf ps + sizeOf ts + sizeOf cs := by simp
    show sizeOf c < sizeOf (TgStructure.mk ns ps ts cs)
    omega

/-- tgTaggable::addTags on a structure: append a tag to its own tag set. -/
def addTagS (t : String) (s : TgStructure) : TgStructure :=
  .mk s.nodes s.pairs (s.tags ++ [t]) s.children

/-- tgStructure::addChild: append a child graph. -/
def addChildS (s : TgStructure) (c : TgStructure) : TgStructure :=
  .mk s.nodes s.pairs s.tags (s.children ++ [c])

/-- A default structure value for total list indexing (never reachable on the
in-bounds executions the claims are about). -/
def dfltS : TgStructure := emptyS

/-- A default node value for total list indexing. -/
def dfltN : TgNode := ⟨⟨0, 0, 0⟩, []⟩

/-- The position of the node at (C++ int) index i of a node list; out-of-range
access is undefined behaviour in the source and is modelled by the origin
sentinel, never exercised by in-range inputs. -/
def posAt (ns : List TgNode) (i : Int) : Vec3 :=
  if 0 ≤ i ∧ i.toNat < ns.length then (ns.getD i.toNat dfltN).pos else ⟨0, 0, 0⟩

/-- tgStructure::addPair taking two node indices: looks the nodes up and
stores their coordinates together with the tag. -/
def addPairIdx (s : TgStructure) (i j : Int) (tag : String) : TgStructure :=
  .mk s.nodes (s.pairs ++ [⟨posAt s.nodes i, posAt s.nodes j, [tag]⟩]) s.tags s.children

/-- tgStructure::addPair taking two node values (as in addMuscles of the
TetraSpine model): stores their coordinates together with the tag. -/
def addPairNodes (s : TgStructure) (a b : TgNode) (tag : String) : TgStructure :=
  .mk s.nodes (s.pairs ++ [⟨a.pos, b.pos, [tag]⟩]) s.tags s.children

/-- tgString: concatenates a string with a number, as in the segment tags. -/
def tgString (s : String) (n : Nat) : String := s ++ toString n

namespace TetraSpine

/-- addNodes of TetraSpineStaticModel.cpp.  The third coordinate of the tip
node is tgUtil::round(sqrt(3)/2 * height) in the source, an irrational
floating-point value; it enters here as the parameter fz, on which none of
the claims depend. -/
def addNodes (tetra : TgStructure) (edge height fz : ℚ) : TgStructure :=
  let s1 := addNodeS tetra ⟨⟨-edge / 2, 0, 0⟩, ["base"]⟩
  let s2 := addNodeS s1 ⟨⟨edge / 2, 0, 0⟩, ["base"]⟩
  let s3 := addNodeS s2 ⟨⟨0, height, 0⟩, ["base"]⟩
  let s4 := addNodeS s3 ⟨⟨0, height / 2, fz⟩, ["tip"]⟩
  let oldNodes := s4.nodes
  let n0 := oldNodes.getD 0 dfltN
  let n2 := oldNodes.getD 2 dfltN
  let nn1 : TgNode := ⟨⟨(n0.pos.x + n2.pos.x) / 2, (n0.pos.y + n2.pos.y) / 2,
      (n0.pos.z + n2.pos.z) / 2⟩, ["PCB"]⟩
  let s5 := addNodeS s4 nn1
  let m1 := s5.nodes.getD 1 dfltN
  let m2 := s5.nodes.getD 2 dfltN
  let nn2 : TgNode := ⟨⟨(m1.pos.x + m2.pos.x) / 2, (m1.pos.y + m2.pos.y) / 2,
      (m1.pos.z + m2.pos.z) / 2⟩, ["PCB"]⟩
  addNodeS s5 nn2

/-- addPairs of TetraSpineStaticModel.cpp: the eight rigid rods of one
tetrahedral segment. -/
def addPairs (tetra : TgStructure) : TgStructure :=
  let p1 := addPairIdx tetra 0 1 ("back bottom rod")
  let p2 := addPairIdx p1 0 4 ("back rightBottom rod")
  let p3 := addPairIdx p2 4 2 ("back rightTop rod")
  let p4 := addPairIdx p3 0 3 ("front right rod")
  let p5 := addPairIdx p4 1 5 ("back leftBottom rod")
  let p6 := addPairIdx p5 5 2 ("back leftTop rod")
  let p7 := addPairIdx p6 1 3 ("front left rod")
  addPairIdx p7 2 3 ("front top rod")

/-- The fixed inter-segment offset (0, 0, -21.5) of addSegments. -/
def offset : Vec3 := ⟨0, 0, -43 / 2⟩

/-- One loop iteration of addSegments: deep-copy the prototype (value
semantics), tag the copy with its segment ordinal, and translate it by
(i + 1) * offset. -/
def segmentCopy (tetra : TgStructure) (i : Nat) : TgStructure :=
  moveS (smulV (i + 1) offset) (addTagS (tgString ("segment num") (i + 1)) tetra)

/-- The loop of addSegments: for the remaining k iterations starting at index
i, append the tagged, translated copy as a child of the snake. -/
def addSegsAux (tetra : TgStructure) : Nat → Nat → TgStructure → TgStructure
  | _, 0, snake => snake
  | i, k + 1, snake => addSegsAux tetra (i + 1) k (addChildS snake (segmentCopy tetra i))

/-- addSegments of TetraSpineStaticModel.cpp (the edge parameter is unused in
the source body as well). -/
def addSegments (snake tetra : TgStructure) (edge : ℚ) (segmentCount : Nat) : TgStructure :=
  addSegsAux tetra 0 segmentCount snake

/-- The six muscle pairs wired between adjacent segments i-1 and i by one
iteration of the addMuscles loop. -/
def musclesFor (kids : List TgStructure) (i : Nat) : List TgPair :=
  let n0 := (kids.getD (i - 1) dfltS).nodes
  let n1 := (kids.getD i dfltS).nodes
  [ ⟨(n0.getD 0 dfltN).pos, (n1.getD 0 dfltN).pos, ["outer right muscle"]⟩,
    ⟨(n0.getD 1 dfltN).pos, (n1.getD 1 dfltN).pos, ["outer left muscle"]⟩,
    ⟨(n0.getD 2 dfltN).pos, (n1.getD 2 dfltN).pos, ["outer top muscle"]⟩,
    ⟨(n0.getD 0 dfltN).pos, (n1.getD 3 dfltN).pos, ["inner right muscle"]⟩,
    ⟨(n0.getD 1 dfltN).pos, (n1.getD 3 dfltN).pos, ["inner left muscle"]⟩,
    ⟨(n0.getD 2 dfltN).pos, (n1.getD 3 dfltN).pos, ["inner top muscle"]⟩ ]

/-- Append the six pairs of one addMuscles iteration to the snake. -/
def addSix (s : TgStructure) (kids : List TgStructure) (i : Nat) : TgStructure :=
  .mk s.nodes (s.pairs ++ musclesFor kids i) s.tags s.children

/-- The loop of addMuscles: k remaining iterations starting at boundary i. -/
def addMusAux (kids : List TgStructure) : Nat → Nat → TgStructure → TgStructure
  | _, 0, s => s
  | i, k + 1, s => addMusAux kids (i + 1) k (addSix s kids i)

/-- addMuscles of TetraSpineStaticModel.cpp: wires the six actuator edges
between every pair of adjacent children, for i = 1 .. children.size() - 1. -/
def addMuscles (snake : TgStructure) : TgStructure :=
  addMusAux snake.children 1 (snake.children.length - 1) snake

end TetraSpine

/-! ### Tag dispatch registry (modelled from the spec, tgBuildSpec is not in
the repository snapshot) -/

/-- Boolean test that the first list is a prefix of the second. -/
def isPre : List Char → List Char → Bool
  | [], _ => true
  | _ :: _, [] => false
  | a :: as, b :: bs => a == b && isPre as bs

/-- Boolean test that the first list occurs contiguously inside the second. -/
def hasSub : List Char → List Char → Bool
  | needle, [] => isPre needle []
  | needle, b :: bs => isPre needle (b :: bs) || hasSub needle bs

/-- Modelled from the spec: a registered label matches an edge if the edge's
tag set contains a tag equal to, or containing as a substring, the label. -/
def labelMatches (label : String) (tags : List String) : Bool :=
  tags.any (fun t => hasSub label.data t.data)

/-- Modelled from the spec: the Registry is an ordered list of label/Builder
pairs; resolution returns the first-registered matching label's builder and
fails when no label matches. -/
def resolve {β : Type} (reg : List (String × β)) (tags : List String) : Option β :=
  match reg with
  | [] => none
  | (l, b) :: rest => if labelMatches l tags then some b else resolve rest tags

/-! ### Resolution engine and Model (modelled from the spec, tgStructureInfo
is not in the repository snapshot) -/

/-- The two realized component kinds. -/
inductive BKind where
  | rigid : BKind
  | actuator : BKind
deriving DecidableEq, Repr

/-- A Builder: produces one runtime component of its kind from an edge and a
numeric configuration. -/
structure Builder where
  kind : BKind
  cfg : List ℚ
deriving DecidableEq, Repr

/-- A realized runtime component: its numeric configuration and the two
endpoint coordinates of the edge it was built from. -/
structure Component where
  cfg : List ℚ
  endA : Vec3
  endB : Vec3
deriving DecidableEq, Repr

/-- The runtime Model: owned rigid-link components and actuator components. -/
structure BuiltModel where
  rigids : List Component
  actuators : List Component
deriving DecidableEq, Repr

/-- All edges of a graph: its own pairs followed by those of all descendants. -/
def allPairsOf : TgStructure → List TgPair
  | .mk ns ps ts cs => ps ++ (cs.attach.map (fun c => allPairsOf c.1)).flatten
decreasing_by
  rename_i ps ts cs
  cases c with
  | mk c hc =>
    have h1 := List.sizeOf_lt_of_mem hc
    have h2 : sizeOf (TgStructure.mk ns ps ts cs)
        = 1 + sizeOf ns + sizeOf ps + sizeOf ts + sizeOf cs := by simp
    show sizeOf c < sizeOf (TgStructure.mk ns ps ts cs)
    omega

/-- Resolve every edge against the registry; fails if any edge is unresolved. -/
def resolvePairs (reg : List (String × Builder)) : List TgPair → Option (List (Builder × TgPair))
  | [] => some []
  | p :: ps =>
    match resolve reg p.tags, resolvePairs reg ps with
    | some b, some rest => some ((b, p) :: rest)
    | _, _ => none

/-- Modelled from the spec: the Resolution Engine walks every edge of the
graph, resolves a Builder for each, and emits components into the Model;
rigid-link edges are realized in the first pass, actuator edges in the
second; an unresolved edge is a fatal configuration error. -/
def buildModel (reg : List (String × Builder)) (s : TgStructure) : Option BuiltModel :=
  match resolvePairs reg (allPairsOf s) with
  | none => none
  | some bps =>
      some ⟨(bps.filter (fun bp => bp.1.kind == BKind.rigid)).map
              (fun bp => ⟨bp.1.cfg, bp.2.fst, bp.2.snd⟩),
            (bps.filter (fun bp => bp.1.kind == BKind.actuator)).map
              (fun bp => ⟨bp.1.cfg, bp.2.fst, bp.2.snd⟩)⟩

/-! ### JSON document model (JsonCpp semantics of the values read by
TensegrityModel.cpp) -/

/-- A parsed JSON value.  Reading a missing object member yields null, and
Json::Value::asDouble/asInt on null yield 0 — the JsonCpp behaviour the
source relies on. -/
inductive JVal where
  | null : JVal
  | num : ℚ → JVal
  | str : String → JVal
  | arr : List JVal → JVal
  | obj : List (String × JVal) → JVal

/-- Json::Value::operator[](key): member lookup, null when absent or when the
receiver is not an object. -/
def JVal.get : JVal → String → JVal
  | .obj fs, k =>
    match fs.lookup k with
    | some v => v
    | none => .null
  | _, _ => .null

/-- Json::Value::operator[](index): array indexing, null out of range. -/
def JVal.idx : JVal → Nat → JVal
  | .arr xs, i => xs.getD i .null
  | _, _ => .null

/-- Json::Value::asDouble: the numeric value, 0.0 on null (the claims never
read a non-numeric, non-null field). -/
def JVal.asDouble : JVal → ℚ
  | .num q => q
  | _ => 0

/-- Json::Value::asInt: the integral value, 0 on null. -/
def JVal.asInt : JVal → Int
  | .num q => ⌊q⌋
  | _ => 0

/-- The element list of an array value (iteration domain of the source's
index loops); empty for any other value. -/
def jarr : JVal → List JVal
  | .arr xs => xs
  | _ => []

namespace Tensegrity

/-- The node built from one document node entry by
TensegrityModel::addNodes. -/
def nodeFromEntry (nd : JVal) : TgNode :=
  ⟨⟨((nd.get ("coordinates")).idx 0).asDouble,
    ((nd.get ("coordinates")).idx 1).asDouble,
    ((nd.get ("coordinates")).idx 2).asDouble⟩, []⟩

/-- TensegrityModel::addNodes: one node per entry of structure.nodes, in
document order. -/
def addNodes (s : TgStructure) (root : JVal) : TgStructure :=
  (jarr ((root.get ("structure")).get ("nodes"))).foldl
    (fun acc nd => addNodeS acc (nodeFromEntry nd)) s

/-- TensegrityModel::addRods: one pair tagged rod per entry of
structure.rods, 1-based document indices converted by subtracting 1. -/
def addRods (s : TgStructure) (root : JVal) : TgStructure :=
  (jarr ((root.get ("structure")).get ("rods"))).foldl
    (fun acc r => addPairIdx acc ((r.idx 0).asInt - 1) ((r.idx 1).asInt - 1) ("rod")) s

/-- TensegrityModel::addMuscles: one pair tagged muscle per entry of
structure.muscles, 1-based document indices converted by subtracting 1. -/
def addMuscles (s : TgStructure) (root : JVal) : TgStructure :=
  (jarr ((root.get ("structure")).get ("muscles"))).foldl
    (fun acc r => addPairIdx acc ((r.idx 0).asInt - 1) ((r.idx 1).asInt - 1) ("muscle")) s

/-- The two builders registered by TensegrityModel::setup, configured from
the document's global numeric parameters. -/
def tensegritySpec (radius density stiffness damping pretension : ℚ) :
    List (String × Builder) :=
  [(("rod"), ⟨BKind.rigid, [radius, density]⟩),
   (("muscle"), ⟨BKind.actuator, [stiffness, damping, pretension]⟩)]

/-- The result of a completed TensegrityModel::setup run: the built Model,
the assembled structure, the registered spec, and the parameters read from
the document. -/
structure Outcome where
  model : BuiltModel
  struc : TgStructure
  spec : List (String × Builder)
  radius : ℚ
  density : ℚ
  stiffness : ℚ
  damping : ℚ
  pretension : ℚ

/-- TensegrityModel::setup.  The argument is the result of
Json::Reader::parse: none for a malformed document (the source reports the
failure and returns without building), some root otherwise.  Parameter
fields are read with asDouble, so a missing field is read as 0. -/
def setup (parsed : Option JVal) : Option Outcome :=
  match parsed with
  | none => none
  | some root =>
    let rodParams := (root.get ("parameters")).get ("rods")
    let muscleParams := (root.get ("parameters")).get ("muscles")
    let radius := (rodParams.get ("radius")).asDouble
    let density := (rodParams.get ("density")).asDouble
    let stiffness := (muscleParams.get ("stiffness")).asDouble
    let damping := (muscleParams.get ("damping")).asDouble
    let pretension := (muscleParams.get ("pretension")).asDouble
    let s0 := addMuscles (addRods (addNodes emptyS root) root) root
    let s := moveS ⟨0, 10, 0⟩ s0
    let spec := tensegritySpec radius density stiffness damping pretension
    match buildModel spec s with
    | none => none
    | some m => some ⟨m, s, spec, radius, density, stiffness, damping, pretension⟩

/-- A well-formed document whose parameters.rods object lacks the required
radius field. -/
def cexDoc : JVal :=
  .obj [(("structure"),
          .obj [(("nodes"), .arr [.obj [(("coordinates"), .arr [.num 1, .num 2, .num 3])]]),
                (("rods"), .arr []),
                (("muscles"), .arr [])]),
        (("parameters"),
          .obj [(("rods"), .obj [(("density"), .num 1)]),
                (("muscles"), .obj [(("stiffness"), .num 2), (("damping"), .num 3),
                                    (("pretension"), .num 4)])])]


/-- The nodes a document denotes, in document order. -/
def baseNodes (root : JVal) : List TgNode :=
  (jarr ((root.get ("structure")).get ("nodes"))).map nodeFromEntry

/-- The rod pairs a document denotes: 1-based indices converted by
subtracting 1 and resolved against the document's nodes. -/
def rodPairs (root : JVal) : List TgPair :=
  (jarr ((root.get ("structure")).get ("rods"))).map
    (fun r => ⟨posAt (baseNodes root) ((r.idx 0).asInt - 1),
               posAt (baseNodes root) ((r.idx 1).asInt - 1), [("rod")]⟩)

/-- The muscle pairs a document denotes. -/
def musclePairs (root : JVal) : List TgPair :=
  (jarr ((root.get ("structure")).get ("muscles"))).map
    (fun m => ⟨posAt (baseNodes root) ((m.idx 0).asInt - 1),
               posAt (baseNodes root) ((m.idx 1).asInt - 1), [("muscle")]⟩)

/-- parameters.rods.radius as read by setup. -/
def radiusOf (root : JVal) : ℚ :=
  (((root.get ("parameters")).get ("rods")).get ("radius")).asDouble

/-- parameters.rods.density as read by setup. -/
def densityOf (root : JVal) : ℚ :=
  (((root.get ("parameters")).get ("rods")).get ("density")).asDouble

/-- parameters.muscles.stiffness as read by setup. -/
def stiffnessOf (root : JVal) : ℚ :=
  (((root.get ("parameters")).get ("muscles")).get ("stiffness")).asDouble

/-- parameters.muscles.damping as read by setup. -/
def dampingOf (root : JVal) : ℚ :=
  (((root.get ("parameters")).get ("muscles")).get ("damping")).asDouble

/-- parameters.muscles.pretension as read by setup. -/
def pretensionOf (root : JVal) : ℚ :=
  (((root.get ("parameters")).get ("muscles")).get ("pretension")).asDouble

end Tensegrity

/-! ### Per-step advance (step) of both models -/

/-- The observable state of a model component tree: a per-observer
notification count and a per-child advancement count. -/
structure CompState where
  observers : List Nat
  childSteps : List Nat
deriving DecidableEq, Repr

/-- Modelled from the spec: notifyStep notifies each attached observer
exactly once, in attachment order. -/
def notifyStep (st : CompState) : CompState :=
  { st with observers := st.observers.map (fun n => n + 1) }

/-- Modelled from the spec: tgModel::step advances each owned child exactly
once. -/
def tgModelStep (st : CompState) : CompState :=
  { st with childSteps := st.childSteps.map (fun n => n + 1) }

/-- TensegrityModel::step: dt <= 0 raises invalid_argument with no mutation;
otherwise observers are notified, then children are advanced. -/
def TensegrityStep (dt : ℚ) (st : CompState) : Except String CompState :=
  if dt ≤ 0 then Except.error ("dt is not positive")
  else Except.ok (tgModelStep (notifyStep st))

/-- Modelled from the spec: BaseSpineModelLearning::step notifies the
attached observers once each, then advances the owned children once. -/
def baseSpineStep (st : CompState) : CompState :=
  tgModelStep (notifyStep st)

/-- TetraSpineStaticModel::step: the source guard is dt < 0, so only a
strictly negative dt raises invalid_argument; any other dt falls through to
BaseSpineModelLearning::step. -/
def TetraSpineStep (dt : ℚ) (st : CompState) : Except String CompState :=
  if dt < 0 then Except.error ("dt is not positive")
  else Except.ok (baseSpineStep st)

/-! ### Teardown ordering -/

/-- Observable teardown events: an observer notification or the base-class
cleanup that releases the owned components. -/
inductive TdEvent where
  | notifyObs : Nat → TdEvent
  | baseCleanup : TdEvent
deriving DecidableEq, Repr

/-- Modelled from the spec: notifyTeardown notifies each attached observer,
in attachment order. -/
def notifyTeardown (obs : Nat) : List TdEvent :=
  (List.range obs).map TdEvent.notifyObs

/-- Modelled from the spec: tgModel::teardown is the base cleanup releasing
the owned components. -/
def tgModelTeardown : List TdEvent := [TdEvent.baseCleanup]

/-- Modelled from the spec: BaseSpineModelLearning::teardown notifies the
external observers of teardown before delegating to the base cleanup. -/
def baseSpineTeardown (obs : Nat) : List TdEvent :=
  notifyTeardown obs ++ tgModelTeardown

/-- TensegrityModel::teardown: notifyTeardown() then tgModel::teardown(). -/
def TensegrityTeardown (obs : Nat) : List TdEvent :=
  notifyTeardown obs ++ tgModelTeardown

/-- TetraSpineStaticModel::teardown: delegates to
BaseSpineModelLearning::teardown(). -/
def TetraTeardown (obs : Nat) : List TdEvent :=
  baseSpineTeardown obs

/-! ### Markers (addMarkers of TetraSpineStaticModel.cpp) -/

/-- A realized rigid body, reduced to its center of mass. -/
structure RigidBody where
  com : Vec3
deriving DecidableEq, Repr

/-- An abstractMarker: the index of its rigid body, the offset from that
body's center of mass, a direction, and an ordinal. -/
structure Marker where
  body : Nat
  offset : Vec3
  dir : Vec3
  ord : Nat
deriving DecidableEq, Repr

/-- addMarkers of TetraSpineStaticModel.cpp.  The source unconditionally
indexes children[0], children[1], getAllRigids()[0], getAllRigids()[9] and
nodes 0, 1, 3 of the two children; each such access is modelled as a
checked lookup so that an out-of-bounds access yields none. -/
def addMarkersM (children : List TgStructure) (rigids : List RigidBody) :
    Option (List Marker) :=
  (children[0]?).bind fun c0 =>
  (rigids[0]?).bind fun firstBody =>
  (c0.nodes[3]?).bind fun n03 =>
  (children[1]?).bind fun c1 =>
  (rigids[9]?).bind fun secondBody =>
  (c1.nodes[3]?).bind fun n13 =>
  (c1.nodes[1]?).bind fun n11 =>
  (c1.nodes[0]?).bind fun n10 =>
  some [⟨0, subV n03.pos firstBody.com, ⟨1, 0, 0⟩, 0⟩,
        ⟨9, subV n13.pos secondBody.com, ⟨1, 0, 0⟩, 0⟩,
        ⟨9, subV n11.pos secondBody.com, ⟨1, 0, 0⟩, 0⟩,
        ⟨9, subV n10.pos secondBody.com, ⟨1, 0, 0⟩, 0⟩]

/-! ### Heap model of cloning and transforming graphs (claim C8)

The spec's ownership contract — deep copy on cloning, no aliasing of Node or
Edge storage between graphs — is about storage, so it is settled over an
explicit store: structures live at numbered addresses, children are
addresses, and cloning allocates fresh addresses. -/

/-- The stored data of one structure: nodes, pairs, tags, and the addresses
of its children. -/
structure SData where
  nodes : List TgNode
  pairs : List TgPair
  tags : List String
  kids : List Nat
deriving DecidableEq, Repr

/-- A store of structures, addressed by natural numbers. -/
abbrev Heap := List (Nat × SData)

/-- A store together with the next fresh address. -/
structure HState where
  heap : Heap
  next : Nat
deriving DecidableEq, Repr

/-- First-match lookup of an address. -/
def hlookup : Heap → Nat → Option SData
  | [], _ => none
  | (j, d) :: h, i => if j = i then some d else hlookup h i

/-- In-place update of the data at an address. -/
def hupdate (h : Heap) (i : Nat) (d : SData) : Heap :=
  h.map (fun p => if p.1 = i then (i, d) else p)

/-- Deep-copy the structures at the given addresses (and, recursively, their
subtrees), allocating fresh addresses; returns the new state and the clones'
addresses.  Fuel-indexed; enough fuel always exists for acyclic stores. -/
def cloneL : Nat → HState → List Nat → Option (HState × List Nat)
  | _, s, [] => some (s, [])
  | 0, _, _ :: _ => none
  | f + 1, s, i :: is =>
    match hlookup s.heap i with
    | none => none
    | some d =>
      match cloneL f s d.kids with
      | none => none
      | some (s1, cs) =>
        match cloneL f
            ⟨s1.heap ++ [(s1.next, ⟨d.nodes, d.pairs, d.tags, cs⟩)], s1.next + 1⟩ is with
        | none => none
        | some (s3, rest) => some (s3, s1.next :: rest)

/-- Translate the structures at the given addresses and, recursively, their
subtrees, mutating the store in place. -/
def moveL (v : Vec3) : Nat → Heap → List Nat → Option Heap
  | _, h, [] => some h
  | 0, _, _ :: _ => none
  | f + 1, h, i :: is =>
    match hlookup h i with
    | none => none
    | some d =>
      match moveL v f
          (hupdate h i ⟨d.nodes.map (moveNode v), d.pairs.map (movePair v), d.tags, d.kids⟩)
          d.kids with
      | none => none
      | some h2 => moveL v f h2 is

/-- The value trees denoted by a list of addresses. -/
inductive VTree where
  | mk : List TgNode → List TgPair → List String → List VTree → VTree

/-- Read the full value trees rooted at the given addresses out of a store. -/
def readL : Nat → Heap → List Nat → Option (List VTree)
  | _, _, [] => some []
  | 0, _, _ :: _ => none
  | f + 1, h, i :: is =>
    match hlookup h i with
    | none => none
    | some d =>
      match readL f h d.kids with
      | none => none
      | some ks =>
        match readL f h is with
        | none => none
        | some ts => some (VTree.mk d.nodes d.pairs d.tags ks :: ts)

/-- All addresses making up the subtrees rooted at the given addresses. -/
def idsL : Nat → Heap → List Nat → Option (List Nat)
  | _, _, [] => some []
  | 0, _, _ :: _ => none
  | f + 1, h, i :: is =>
    match hlookup h i with
    | none => none
    | some d =>
      match idsL f h d.kids, idsL f h is with
      | some a, some b => some (i :: (a ++ b))
      | _, _ => none

/-- Well-formedness of a store below the allocation bound: every stored
address and every child address is below the bound. -/
def Wf (n : Nat) (h : Heap) : Prop :=
  ∀ p ∈ h, p.1 < n ∧ ∀ k ∈ p.2.kids, k < n

/-- Every entry at or above the bound has children at or above the bound
(true of the freshly cloned region). -/
def HighClosed (n : Nat) (h : Heap) : Prop :=
  ∀ p ∈ h, n ≤ p.1 → ∀ k ∈ p.2.kids, n ≤ k

/-- A concrete two-structure store for the C8 witness: address 0 holds a
root whose single child is address 1. -/
def c8s0 : HState :=
  ⟨[(0, ⟨[], [], ["root"], [1]⟩), (1, ⟨[], [], ["leaf"], []⟩)], 2⟩

/-- The translation applied to the clone in the C8 witness. -/
def c8v : Vec3 := ⟨1, 0, 0⟩

/-- The clone step of the C8 witness. -/
def c8clone : HState × List Nat := (cloneL 9 c8s0 [0]).getD (⟨[], 0⟩, [])

/-- The state after cloning in the C8 witness. -/
def c8s2 : HState := c8clone.1

/-- The clone's addresses in the C8 witness. -/
def c8cs : List Nat := c8clone.2

/-- The store after translating the clone in the C8 witness. -/
def c8h3 : Heap := (moveL c8v 9 c8s2.heap c8cs).getD []

/-- A concrete chain with two four-node children for the C5 witness. -/
def c5snake : TgStructure :=
  .mk [] [] []
    [.mk [⟨⟨0, 0, 0⟩, []⟩, ⟨⟨1, 0, 0⟩, []⟩, ⟨⟨2, 0, 0⟩, []⟩, ⟨⟨3, 0, 0⟩, []⟩] [] [] [],
     .mk [⟨⟨10, 0, 0⟩, []⟩, ⟨⟨11, 0, 0⟩, []⟩, ⟨⟨12, 0, 0⟩, []⟩, ⟨⟨13, 0, 0⟩, []⟩] [] [] []]

/-! ### Basic structural lemmas -/

@[simp] theorem nodes_mk (ns ps ts cs) : (TgStructure.mk ns ps ts cs).nodes = ns := rfl

@[simp] theorem pairs_mk (ns ps ts cs) : (TgStructure.mk ns ps ts cs).pairs = ps := rfl

@[simp] theorem tags_mk (ns ps ts cs) : (TgStructure.mk ns ps ts cs).tags = ts := rfl

@[simp] theorem children_mk (ns ps ts cs) : (TgStructure.mk ns ps ts cs).children = cs := rfl

theorem moveS_mk (v ns ps ts cs) :
    moveS v (.mk ns ps ts cs)
      = .mk (ns.map (moveNode v)) (ps.map (movePair v)) ts (cs.map (moveS v)) := by
  rw [moveS]
  simp [List.attach_map_val]

@[simp] theorem moveS_nodes (v : Vec3) (s : TgStructure) :
    (moveS v s).nodes = s.nodes.map (moveNode v) := by
  cases s
  simp [moveS_mk]

@[simp] theorem moveS_pairs (v : Vec3) (s : TgStructure) :
    (moveS v s).pairs = s.pairs.map (movePair v) := by
  cases s
  simp [moveS_mk]

@[simp] theorem moveS_tags (v : Vec3) (s : TgStructure) :
    (moveS v s).tags = s.tags := by
  cases s
  simp [moveS_mk]

@[simp] theorem moveS_children (v : Vec3) (s : TgStructure) :
    (moveS v s).children = s.children.map (moveS v) := by
  cases s
  simp [moveS_mk]

/-- Summing a constant function over a list. -/
theorem sum_map_eq_mul {α : Type} (L : List α) (f : α → Nat) (c : Nat)
    (h : ∀ a ∈ L, f a = c) : (L.map f).sum = c * L.length := by
  induction L with
  | nil => simp
  | cons a l ih =>
    have ha := h a (by simp)
    have hl := ih (fun b hb => h b (by simp [hb]))
    simp [ha, hl, Nat.mul_succ, Nat.add_comm]

/-- Length of the concatenation of constant-length blocks. -/
theorem flatten_len_const {α : Type} (L : List (List α)) (c : Nat)
    (h : ∀ b ∈ L, b.length = c) : L.flatten.length = c * L.length := by
  induction L with
  | nil => simp
  | cons b l ih =>
    have hb := h b (by simp)
    have hl := ih (fun x hx => h x (by simp [hx]))
    simp [hb, hl, Nat.mul_succ, Nat.add_comm]

namespace TetraSpine

theorem segmentCopy_nodes (tetra : TgStructure) (i : Nat) :
    (segmentCopy tetra i).nodes = tetra.nodes.map (moveNode (smulV (i + 1) offset)) := by
  cases tetra
  simp [segmentCopy, addTagS, moveS_mk]

theorem segmentCopy_pairs (tetra : TgStructure) (i : Nat) :
    (segmentCopy tetra i).pairs = tetra.pairs.map (movePair (smulV (i + 1) offset)) := by
  cases tetra
  simp [segmentCopy, addTagS, moveS_mk]

theorem segmentCopy_tags (tetra : TgStructure) (i : Nat) :
    (segmentCopy tetra i).tags = tetra.tags ++ [tgString ("segment num") (i + 1)] := by
  cases tetra
  simp [segmentCopy, addTagS, moveS_mk]

/-- The addSegments loop appends one tagged, translated copy per iteration and
touches nothing else of the snake. -/
theorem addSegsAux_eq (tetra : TgStructure) :
    ∀ (k i : Nat) (snake : TgStructure),
      addSegsAux tetra i k snake
        = .mk snake.nodes snake.pairs snake.tags
            (snake.children ++ (List.range k).map (fun j => segmentCopy tetra (i + j))) := by
  intro k
  induction k with
  | zero =>
    intro i snake
    cases snake
    simp [addSegsAux]
  | succ k ih =>
    intro i snake
    rw [addSegsAux, ih]
    cases snake
    simp [addChildS, List.range_succ_eq_map, List.map_map, Function.comp]
    intro a _
    congr 1
    omega

theorem addSegments_eq (snake tetra : TgStructure) (e : ℚ) (n : Nat) :
    addSegments snake tetra e n
      = .mk snake.nodes snake.pairs snake.tags
          (snake.children ++ (List.range n).map (fun j => segmentCopy tetra j)) := by
  rw [addSegments, addSegsAux_eq]
  simp

/-- The addMuscles loop appends the six boundary pairs per iteration and
touches nothing else of the snake. -/
theorem addMusAux_eq (kids : List TgStructure) :
    ∀ (k i : Nat) (s : TgStructure),
      addMusAux kids i k s
        = .mk s.nodes
            (s.pairs ++ ((List.range k).map (fun j => musclesFor kids (i + j))).flatten)
            s.tags s.children := by
  intro k
  induction k with
  | zero =>
    intro i s
    cases s
    simp [addMusAux]
  | succ k ih =>
    intro i s
    rw [addMusAux, ih]
    cases s
    simp [addSix, List.range_succ_eq_map, List.map_map, Function.comp]
    apply congrArg List.flatten
    apply List.map_congr_left
    intro j _
    simp only [Function.comp_apply]
    congr 1
    omega

theorem addMuscles_eq (snake : TgStructure) :
    addMuscles snake
      = .mk snake.nodes
          (snake.pairs ++ ((List.range (snake.children.length - 1)).map
              (fun j => musclesFor snake.children (1 + j))).flatten)
          snake.tags snake.children := by
  rw [addMuscles, addMusAux_eq]

@[simp] theorem musclesFor_length (kids : List TgStructure) (i : Nat) :
    (musclesFor kids i).length = 6 := rfl

end TetraSpine

/-! ### The generated chain and its counts (claims C1, C5, C7) -/

namespace TetraSpine

/-- The children of the finished chain are exactly the N tagged, translated
copies of the prototype, in segment order. -/
theorem chain_children (proto : TgStructure) (e : ℚ) (N : Nat) :
    (addMuscles (addSegments emptyS proto e N)).children
      = (List.range N).map (fun j => segmentCopy proto j) := by
  rw [addMuscles_eq, addSegments_eq]
  simp [emptyS]

theorem chain_nodes_sum (proto : TgStructure) (e : ℚ) (N : Nat) :
    ((addMuscles (addSegments emptyS proto e N)).children.map
        (fun c => c.nodes.length)).sum = N * proto.nodes.length := by
  rw [chain_children]
  rw [sum_map_eq_mul _ _ proto.nodes.length]
  · simp [Nat.mul_comm]
  · intro a ha
    obtain ⟨j, _, rfl⟩ := List.mem_map.mp ha
    simp [segmentCopy_nodes]

theorem chain_pairs_sum (proto : TgStructure) (e : ℚ) (N : Nat) :
    ((addMuscles (addSegments emptyS proto e N)).children.map
        (fun c => c.pairs.length)).sum = N * proto.pairs.length := by
  rw [chain_children]
  rw [sum_map_eq_mul _ _ proto.pairs.length]
  · simp [Nat.mul_comm]
  · intro a ha
    obtain ⟨j, _, rfl⟩ := List.mem_map.mp ha
    simp [segmentCopy_pairs]

/-- The top-level chain carries exactly 6 * (N - 1) actuator pairs. -/
theorem chain_muscle_count (proto : TgStructure) (e : ℚ) (N : Nat) :
    (addMuscles (addSegments emptyS proto e N)).pairs.length = 6 * (N - 1) := by
  rw [addMuscles_eq, addSegments_eq]
  simp only [pairs_mk, children_mk, emptyS, List.nil_append, List.length_append]
  rw [flatten_len_const _ 6]
  · simp
  · intro b hb
    obtain ⟨j, _, rfl⟩ := List.mem_map.mp hb
    simp

end TetraSpine

/-- C1: for every prototype Graph with n nodes and e rigid-link edges and
every segment count N >= 1, the chain produced by addSegments followed by
addMuscles contains exactly N*n nodes and N*e rigid-link edges across its
children, plus exactly 6*(N-1) actuator edges on the top-level chain; the
6-node, 8-edge tetra prototype with N = 3 yields 18 nodes, 24 rigid-link
edges, and 12 actuator edges. -/
theorem c1_chain_counts (proto : TgStructure) (N : Nat) (hN : 1 ≤ N) (e h fz : ℚ) :
    ((TetraSpine.addMuscles (TetraSpine.addSegments emptyS proto e N)).children.map
        (fun c => c.nodes.length)).sum = N * proto.nodes.length
    ∧ ((TetraSpine.addMuscles (TetraSpine.addSegments emptyS proto e N)).children.map
        (fun c => c.pairs.length)).sum = N * proto.pairs.length
    ∧ (TetraSpine.addMuscles (TetraSpine.addSegments emptyS proto e N)).pairs.length
        = 6 * (N - 1)
    ∧ (((TetraSpine.addMuscles (TetraSpine.addSegments emptyS
          (moveS ⟨0, 2, 100⟩ (TetraSpine.addPairs (TetraSpine.addNodes emptyS e h fz)))
          e 3)).children.map (fun c => c.nodes.length)).sum = 18
       ∧ ((TetraSpine.addMuscles (TetraSpine.addSegments emptyS
          (moveS ⟨0, 2, 100⟩ (TetraSpine.addPairs (TetraSpine.addNodes emptyS e h fz)))
          e 3)).children.map (fun c => c.pairs.length)).sum = 24
       ∧ (TetraSpine.addMuscles (TetraSpine.addSegments emptyS
          (moveS ⟨0, 2, 100⟩ (TetraSpine.addPairs (TetraSpine.addNodes emptyS e h fz)))
          e 3)).pairs.length = 12) := by
  have h6 : (moveS ⟨0, 2, 100⟩
      (TetraSpine.addPairs (TetraSpine.addNodes emptyS e h fz))).nodes.length = 6 := by
    simp [TetraSpine.addPairs, TetraSpine.addNodes, addPairIdx, addNodeS, emptyS]
  have h8 : (moveS ⟨0, 2, 100⟩
      (TetraSpine.addPairs (TetraSpine.addNodes emptyS e h fz))).pairs.length = 8 := by
    simp [TetraSpine.addPairs, TetraSpine.addNodes, addPairIdx, addNodeS, emptyS]
  refine ⟨TetraSpine.chain_nodes_sum proto e N, TetraSpine.chain_pairs_sum proto e N,
    TetraSpine.chain_muscle_count proto e N, ?_, ?_, ?_⟩
  · rw [TetraSpine.chain_nodes_sum, h6]
  · rw [TetraSpine.chain_pairs_sum, h8]
  · rw [TetraSpine.chain_muscle_count]

/-- Witness for C1 at the concrete segment count N = 3. -/
theorem c1_chain_counts_witness :
    1 ≤ 3
    ∧ ((TetraSpine.addMuscles (TetraSpine.addSegments emptyS
          (TgStructure.mk [dfltN] [] [] []) 0 3)).children.map
        (fun c => c.nodes.length)).sum = 3 * (TgStructure.mk [dfltN] [] [] []).nodes.length :=
  ⟨by decide, (c1_chain_counts (TgStructure.mk [dfltN] [] [] []) 3 (by decide) 0 0 0).1⟩

/-- C7: for every prototype Graph and every segment count N, addSegments
produces, for i = 1..N, a deep copy of the prototype tagged with its segment
ordinal, translated by i times the fixed offset, appended as a child of the
top-level chain; each copy preserves the prototype's internal node ordering
positionally. -/
theorem c7_segment_replication (snake proto : TgStructure) (e : ℚ) (N : Nat) :
    (TetraSpine.addSegments snake proto e N).children
      = snake.children ++ (List.range N).map (fun i =>
          moveS (smulV (i + 1) TetraSpine.offset)
            (addTagS (tgString ("segment num") (i + 1)) proto))
    ∧ (TetraSpine.addSegments snake proto e N).children.map (fun c => c.nodes)
      = snake.children.map (fun c => c.nodes)
        ++ (List.range N).map (fun i =>
             proto.nodes.map (moveNode (smulV (i + 1) TetraSpine.offset)))
    ∧ (TetraSpine.addSegments snake proto e N).children.map (fun c => c.tags)
      = snake.children.map (fun c => c.tags)
        ++ (List.range N).map (fun i => proto.tags ++ [tgString ("segment num") (i + 1)]) := by
  rw [TetraSpine.addSegments_eq]
  refine ⟨by simp [TetraSpine.segmentCopy], ?_, ?_⟩
  · simp [List.map_map, Function.comp]
    intro a _
    simp [TetraSpine.segmentCopy_nodes]
  · simp [List.map_map, Function.comp]
    intro a _
    simp [TetraSpine.segmentCopy_tags]

/-- Taking one constant-length block out of a flattened list of blocks. -/
theorem flatten_blocks_take {α : Type} (c : Nat) :
    ∀ (L : List (List α)) (t : Nat), (∀ b ∈ L, b.length = c) → t < L.length →
      ((L.flatten.drop (c * t)).take c) = L.getD t [] := by
  intro L
  induction L with
  | nil => intro t _ ht; simp at ht
  | cons b l ih =>
    intro t h ht
    cases t with
    | zero =>
      have hb : b.length = c := h b (by simp)
      simp [List.flatten_cons, ← hb, List.take_left]
    | succ t =>
      have hb : b.length = c := h b (by simp)
      have hdrop : ((b :: l).flatten).drop (c * (t + 1))
          = (l.flatten).drop (c * t) := by
        rw [List.flatten_cons]
        have : c * (t + 1) = b.length + c * t := by rw [hb]; ring
        rw [this, List.drop_append]
      rw [hdrop]
      have := ih t (fun x hx => h x (by simp [hx])) (by simpa using ht)
      simpa using this

/-- Element of a mapped range at a default-valued index. -/
theorem getD_map_range {α : Type} (f : Nat → α) (m t : Nat) (d : α) (h : t < m) :
    ((List.range m).map f).getD t d = f t := by
  have hlen : t < ((List.range m).map f).length := by simpa using h
  rw [List.getD_eq_getElem _ _ hlen]
  simp

/-- C5: for every adjacent pair of segments (i-1, i) of the chain, addMuscles
adds exactly 6 actuator edges in the fixed positional convention: three outer
edges joining same-position nodes 0, 1, 2 of the two segments, and three
inner edges joining nodes 0, 1, 2 of segment i-1 to the tip node 3 of
segment i. -/
theorem c5_adjacent_muscle_pattern (snake : TgStructure) (i : Nat)
    (h1 : 1 ≤ i) (h2 : i < snake.children.length) :
    ((TetraSpine.addMuscles snake).pairs.drop (snake.pairs.length + 6 * (i - 1))).take 6
      = [⟨((snake.children.getD (i - 1) dfltS).nodes.getD 0 dfltN).pos,
           ((snake.children.getD i dfltS).nodes.getD 0 dfltN).pos, ["outer right muscle"]⟩,
         ⟨((snake.children.getD (i - 1) dfltS).nodes.getD 1 dfltN).pos,
           ((snake.children.getD i dfltS).nodes.getD 1 dfltN).pos, ["outer left muscle"]⟩,
         ⟨((snake.children.getD (i - 1) dfltS).nodes.getD 2 dfltN).pos,
           ((snake.children.getD i dfltS).nodes.getD 2 dfltN).pos, ["outer top muscle"]⟩,
         ⟨((snake.children.getD (i - 1) dfltS).nodes.getD 0 dfltN).pos,
           ((snake.children.getD i dfltS).nodes.getD 3 dfltN).pos, ["inner right muscle"]⟩,
         ⟨((snake.children.getD (i - 1) dfltS).nodes.getD 1 dfltN).pos,
           ((snake.children.getD i dfltS).nodes.getD 3 dfltN).pos, ["inner left muscle"]⟩,
         ⟨((snake.children.getD (i - 1) dfltS).nodes.getD 2 dfltN).pos,
           ((snake.children.getD i dfltS).nodes.getD 3 dfltN).pos, ["inner top muscle"]⟩] := by
  rw [TetraSpine.addMuscles_eq]
  simp only [pairs_mk, children_mk]
  rw [List.drop_append]
  rw [flatten_blocks_take 6 _ (i - 1)]
  · rw [getD_map_range _ _ _ _ (by omega)]
    have hi : 1 + (i - 1) = i := by omega
    rw [hi]
    rfl
  · intro b hb
    obtain ⟨j, _, rfl⟩ := List.mem_map.mp hb
    simp
  · simpa using (by omega : i - 1 < snake.children.length - 1)

/-- Witness for C5 on a concrete two-segment chain at boundary i = 1. -/
theorem c5_adjacent_muscle_pattern_witness :
    1 ≤ 1 ∧ 1 < c5snake.children.length
    ∧ ((TetraSpine.addMuscles c5snake).pairs.drop (c5snake.pairs.length + 6 * (1 - 1))).take 6
      = [⟨((c5snake.children.getD (1 - 1) dfltS).nodes.getD 0 dfltN).pos,
           ((c5snake.children.getD 1 dfltS).nodes.getD 0 dfltN).pos, ["outer right muscle"]⟩,
         ⟨((c5snake.children.getD (1 - 1) dfltS).nodes.getD 1 dfltN).pos,
           ((c5snake.children.getD 1 dfltS).nodes.getD 1 dfltN).pos, ["outer left muscle"]⟩,
         ⟨((c5snake.children.getD (1 - 1) dfltS).nodes.getD 2 dfltN).pos,
           ((c5snake.children.getD 1 dfltS).nodes.getD 2 dfltN).pos, ["outer top muscle"]⟩,
         ⟨((c5snake.children.getD (1 - 1) dfltS).nodes.getD 0 dfltN).pos,
           ((c5snake.children.getD 1 dfltS).nodes.getD 3 dfltN).pos, ["inner right muscle"]⟩,
         ⟨((c5snake.children.getD (1 - 1) dfltS).nodes.getD 1 dfltN).pos,
           ((c5snake.children.getD 1 dfltS).nodes.getD 3 dfltN).pos, ["inner left muscle"]⟩,
         ⟨((c5snake.children.getD (1 - 1) dfltS).nodes.getD 2 dfltN).pos,
           ((c5snake.children.getD 1 dfltS).nodes.getD 3 dfltN).pos, ["inner top muscle"]⟩] :=
  ⟨by decide, by decide, c5_adjacent_muscle_pattern c5snake 1 (by decide) (by decide)⟩

/-- resolve returns some b exactly when the registry splits into a prefix of
non-matching entries followed by a matching entry carrying b. -/
theorem resolve_some_iff {β : Type} (tags : List String) :
    ∀ (reg : List (String × β)) (b : β),
      resolve reg tags = some b ↔
        ∃ pre l post, reg = pre ++ ((l, b) :: post)
          ∧ (∀ p ∈ pre, labelMatches p.1 tags = false)
          ∧ labelMatches l tags = true := by
  intro reg
  induction reg with
  | nil =>
    intro b
    constructor
    · intro h
      simp [resolve] at h
    · rintro ⟨pre, l, post, hdec, _, _⟩
      cases pre <;> simp at hdec
  | cons hd rest ih =>
    intro b
    obtain ⟨l0, b0⟩ := hd
    by_cases hm : labelMatches l0 tags
    · rw [resolve]
      simp only [hm, if_true, Option.some.injEq]
      constructor
      · intro h
        exact ⟨[], l0, rest, by simp [h], by simp, hm⟩
      · rintro ⟨pre, l, post, hdec, hpre, hl⟩
        cases pre with
        | nil =>
          simp at hdec
          exact hdec.1.2
        | cons p pre2 =>
          obtain ⟨pl, pb⟩ := p
          simp at hdec
          have hp := hpre (pl, pb) (by simp)
          rw [← hdec.1.1] at hp
          simp [hm] at hp
    · rw [resolve]
      have hm0 : labelMatches l0 tags = false := by
        simpa using hm
      simp only [hm0, if_false, Bool.false_eq_true]
      rw [ih b]
      constructor
      · rintro ⟨pre, l, post, hdec, hpre, hl⟩
        refine ⟨(l0, b0) :: pre, l, post, by simp [hdec], ?_, hl⟩
        intro p hp
        rcases List.mem_cons.mp hp with h | h
        · rw [h]; exact hm0
        · exact hpre p h
      · rintro ⟨pre, l, post, hdec, hpre, hl⟩
        cases pre with
        | nil =>
          simp at hdec
          rw [hdec.1.1] at hm0
          rw [hl] at hm0
          simp at hm0
        | cons p pre2 =>
          simp at hdec
          exact ⟨pre2, l, post, hdec.2, fun q hq => hpre q (by simp [hq]), hl⟩

/-- resolve fails exactly when no registered label matches. -/
theorem resolve_none_iff {β : Type} (tags : List String) :
    ∀ (reg : List (String × β)),
      resolve reg tags = none ↔ ∀ p ∈ reg, labelMatches p.1 tags = false := by
  intro reg
  induction reg with
  | nil => simp [resolve]
  | cons hd rest ih =>
    obtain ⟨l0, b0⟩ := hd
    by_cases hm : labelMatches l0 tags
    · rw [resolve]
      simp [hm]
    · rw [resolve]
      have hm0 : labelMatches l0 tags = false := by simpa using hm
      simp [hm0, ih]

/-- C4: tag resolution is deterministic — for a fixed Registry and a fixed
edge tag set, any two resolution calls return the same Builder, namely the
one at the first-registered label matching (equal to or contained as a
substring in) one of the edge's tags; if no registered label matches,
resolution fails. -/
theorem c4_resolution_first_match {β : Type} (reg : List (String × β)) (tags : List String) :
    (∀ r1 r2 : Option β, resolve reg tags = r1 → resolve reg tags = r2 → r1 = r2)
    ∧ (∀ b : β, resolve reg tags = some b ↔
        ∃ pre l post, reg = pre ++ ((l, b) :: post)
          ∧ (∀ p ∈ pre, labelMatches p.1 tags = false)
          ∧ labelMatches l tags = true)
    ∧ (resolve reg tags = none ↔ ∀ p ∈ reg, labelMatches p.1 tags = false) :=
  ⟨fun _ _ h1 h2 => h1.symm.trans h2,
   fun b => resolve_some_iff tags reg b,
   resolve_none_iff tags reg⟩

/-- C2: the claim states step raises the invalid-argument failure if and only
if dt <= 0, for both models.  TetraSpineStaticModel::step guards only dt < 0,
so at dt = 0 it raises no error and advances observers and children — while
TensegrityModel::step rejects dt = 0 as the claim requires.  This theorem
evaluates both step functions at the failing input dt = 0. -/
theorem c2_step_zero_divergence :
    TetraSpineStep 0 ⟨[0, 0], [0]⟩ = Except.ok ⟨[1, 1], [1]⟩
    ∧ TensegrityStep 0 ⟨[0, 0], [0]⟩ = Except.error ("dt is not positive") := by
  constructor
  · rfl
  · rfl

/-- In a trace shaped as a block of events followed by a single final marker
not occurring in the block, every non-marker event precedes every marker
occurrence. -/
theorem last_marker_order {α : Type} (L : List α) (x : α) (hx : x ∉ L) :
    ∀ (i j : Nat) (hi : i < (L ++ [x]).length) (hj : j < (L ++ [x]).length),
      (L ++ [x]).get ⟨i, hi⟩ ≠ x → (L ++ [x]).get ⟨j, hj⟩ = x → i < j := by
  intro i j hi hj hne heq
  have hlen : (L ++ [x]).length = L.length + 1 := by simp
  have hjx : j = L.length := by
    by_contra hjn
    have hj2 : j < L.length := by omega
    have hget : (L ++ [x]).get ⟨j, hj⟩ = L.get ⟨j, hj2⟩ := by
      rw [List.get_eq_getElem, List.get_eq_getElem]
      exact List.getElem_append_left hj2
    rw [hget] at heq
    exact hx (heq ▸ List.get_mem L j hj2)
  have hix : i ≠ L.length := by
    intro hie
    apply hne
    subst hie
    rw [List.get_eq_getElem]
    simp
  omega

/-- C9: for every model instance, teardown notifies all attached external
observers before delegating to the base-class cleanup, for both
TensegrityModel::teardown and TetraSpineStaticModel::teardown. -/
theorem c9_teardown_order (obs : Nat) :
    (TensegrityTeardown obs
      = (List.range obs).map TdEvent.notifyObs ++ [TdEvent.baseCleanup])
    ∧ (TetraTeardown obs
      = (List.range obs).map TdEvent.notifyObs ++ [TdEvent.baseCleanup])
    ∧ (∀ (i j : Nat) (hi : i < (TensegrityTeardown obs).length)
          (hj : j < (TensegrityTeardown obs).length),
        (TensegrityTeardown obs).get ⟨i, hi⟩ ≠ TdEvent.baseCleanup →
        (TensegrityTeardown obs).get ⟨j, hj⟩ = TdEvent.baseCleanup → i < j)
    ∧ (∀ (i j : Nat) (hi : i < (TetraTeardown obs).length)
          (hj : j < (TetraTeardown obs).length),
        (TetraTeardown obs).get ⟨i, hi⟩ ≠ TdEvent.baseCleanup →
        (TetraTeardown obs).get ⟨j, hj⟩ = TdEvent.baseCleanup → i < j) := by
  have hx : TdEvent.baseCleanup ∉ (List.range obs).map TdEvent.notifyObs := by
    intro hmem
    obtain ⟨k, _, hk⟩ := List.mem_map.mp hmem
    exact TdEvent.noConfusion hk
  have h1 : TensegrityTeardown obs
      = (List.range obs).map TdEvent.notifyObs ++ [TdEvent.baseCleanup] := rfl
  have h2 : TetraTeardown obs
      = (List.range obs).map TdEvent.notifyObs ++ [TdEvent.baseCleanup] := rfl
  refine ⟨h1, h2, ?_, ?_⟩
  · intro i j hi hj hne heq
    exact last_marker_order ((List.range obs).map TdEvent.notifyObs)
      TdEvent.baseCleanup hx i j hi hj hne heq
  · intro i j hi hj hne heq
    exact last_marker_order ((List.range obs).map TdEvent.notifyObs)
      TdEvent.baseCleanup hx i j hi hj hne heq

/-- C10: TetraSpineStaticModel::setup is well-defined only when the segment
count is at least 2 and the model exposes at least 10 rigid components:
addMarkers unconditionally indexes the chain's children at 0 and 1 and the
rigid list at 0 and 9 and attaches exactly 4 markers; with fewer segments or
rigid components these accesses are out of bounds. -/
theorem c10_addMarkers_bounds (proto : TgStructure) (e : ℚ) (N : Nat)
    (rigids : List RigidBody) (hp : 4 ≤ proto.nodes.length) :
    ((addMarkersM (TetraSpine.addSegments emptyS proto e N).children rigids).isSome
        ↔ (2 ≤ N ∧ 10 ≤ rigids.length))
    ∧ (addMarkersM (TetraSpine.addSegments emptyS proto e N).children rigids).map
        (fun ms => ms.length)
      = if 2 ≤ N ∧ 10 ≤ rigids.length then some 4 else none := by
  have hkids : (TetraSpine.addSegments emptyS proto e N).children
      = (List.range N).map (fun j => TetraSpine.segmentCopy proto j) := by
    rw [TetraSpine.addSegments_eq]
    simp [emptyS]
  rw [hkids]
  by_cases hc : 2 ≤ N ∧ 10 ≤ rigids.length
  · obtain ⟨h2, hR⟩ := hc
    have e0 : ((List.range N).map (fun j => TetraSpine.segmentCopy proto j))[0]?
        = some (TetraSpine.segmentCopy proto 0) := by
      simp [List.getElem?_map, List.getElem?_range, (by omega : 0 < N)]
    have e1 : ((List.range N).map (fun j => TetraSpine.segmentCopy proto j))[1]?
        = some (TetraSpine.segmentCopy proto 1) := by
      simp [List.getElem?_map, List.getElem?_range, (by omega : 1 < N)]
    have hb0 : rigids[0]?.isSome := by
      simp [List.getElem?_eq_getElem (show 0 < rigids.length by omega)]
    obtain ⟨b0, hb0⟩ := Option.isSome_iff_exists.mp hb0
    have hb9 : rigids[9]?.isSome := by
      simp [List.getElem?_eq_getElem (show 9 < rigids.length by omega)]
    obtain ⟨b9, hb9⟩ := Option.isSome_iff_exists.mp hb9
    have hn0len : (TetraSpine.segmentCopy proto 0).nodes.length = proto.nodes.length := by
      simp [TetraSpine.segmentCopy_nodes]
    have hn1len : (TetraSpine.segmentCopy proto 1).nodes.length = proto.nodes.length := by
      simp [TetraSpine.segmentCopy_nodes]
    have hn03 : (TetraSpine.segmentCopy proto 0).nodes[3]?.isSome := by
      simp [List.getElem?_eq_getElem
        (show 3 < (TetraSpine.segmentCopy proto 0).nodes.length by omega)]
    obtain ⟨n03, hn03⟩ := Option.isSome_iff_exists.mp hn03
    have hn13 : (TetraSpine.segmentCopy proto 1).nodes[3]?.isSome := by
      simp [List.getElem?_eq_getElem
        (show 3 < (TetraSpine.segmentCopy proto 1).nodes.length by omega)]
    obtain ⟨n13, hn13⟩ := Option.isSome_iff_exists.mp hn13
    have hn11 : (TetraSpine.segmentCopy proto 1).nodes[1]?.isSome := by
      simp [List.getElem?_eq_getElem
        (show 1 < (TetraSpine.segmentCopy proto 1).nodes.length by omega)]
    obtain ⟨n11, hn11⟩ := Option.isSome_iff_exists.mp hn11
    have hn10 : (TetraSpine.segmentCopy proto 1).nodes[0]?.isSome := by
      simp [List.getElem?_eq_getElem
        (show 0 < (TetraSpine.segmentCopy proto 1).nodes.length by omega)]
    obtain ⟨n10, hn10⟩ := Option.isSome_iff_exists.mp hn10
    have hfull : addMarkersM
        ((List.range N).map (fun j => TetraSpine.segmentCopy proto j)) rigids
        = some [⟨0, subV n03.pos b0.com, ⟨1, 0, 0⟩, 0⟩,
                ⟨9, subV n13.pos b9.com, ⟨1, 0, 0⟩, 0⟩,
                ⟨9, subV n11.pos b9.com, ⟨1, 0, 0⟩, 0⟩,
                ⟨9, subV n10.pos b9.com, ⟨1, 0, 0⟩, 0⟩] := by
      simp only [addMarkersM, e0, e1, hb0, hb9, hn03, hn13, hn11, hn10, Option.some_bind]
    rw [hfull]
    constructor
    · simp [h2, hR]
    · simp [h2, hR]
  · have hnone : addMarkersM
        ((List.range N).map (fun j => TetraSpine.segmentCopy proto j)) rigids = none := by
      by_cases h0 : N = 0
      · have e0 : ((List.range N).map (fun j => TetraSpine.segmentCopy proto j))[0]? = none := by
          subst h0; simp
        simp only [addMarkersM, e0, Option.none_bind]
      · by_cases h1 : N = 1
        · have e0 : ((List.range N).map (fun j => TetraSpine.segmentCopy proto j))[0]?
              = some (TetraSpine.segmentCopy proto 0) := by
            simp [List.getElem?_map, List.getElem?_range, (by omega : 0 < N)]
          have e1 : ((List.range N).map (fun j => TetraSpine.segmentCopy proto j))[1]? = none := by
            subst h1; simp
          by_cases hr0 : 1 ≤ rigids.length
          · have hb0 : rigids[0]?.isSome := by
              simp [List.getElem?_eq_getElem (show 0 < rigids.length by omega)]
            obtain ⟨b0, hb0⟩ := Option.isSome_iff_exists.mp hb0
            have hn0len : (TetraSpine.segmentCopy proto 0).nodes.length
                = proto.nodes.length := by
              simp [TetraSpine.segmentCopy_nodes]
            have hn03 : (TetraSpine.segmentCopy proto 0).nodes[3]?.isSome := by
              simp [List.getElem?_eq_getElem
                (show 3 < (TetraSpine.segmentCopy proto 0).nodes.length by omega)]
            obtain ⟨n03, hn03⟩ := Option.isSome_iff_exists.mp hn03
            simp only [addMarkersM, e0, e1, hb0, hn03, Option.some_bind, Option.none_bind]
          · have hb0 : rigids[0]? = none := by
              rw [List.getElem?_eq_none]
              omega
            simp only [addMarkersM, e0, hb0, Option.some_bind, Option.none_bind]
        · have h2 : 2 ≤ N := by omega
          have hRn : ¬ 10 ≤ rigids.length := by tauto
          have e0 : ((List.range N).map (fun j => TetraSpine.segmentCopy proto j))[0]?
              = some (TetraSpine.segmentCopy proto 0) := by
            simp [List.getElem?_map, List.getElem?_range, (by omega : 0 < N)]
          have e1 : ((List.range N).map (fun j => TetraSpine.segmentCopy proto j))[1]?
              = some (TetraSpine.segmentCopy proto 1) := by
            simp [List.getElem?_map, List.getElem?_range, (by omega : 1 < N)]
          have hb9 : rigids[9]? = none := by
            rw [List.getElem?_eq_none]
            omega
          by_cases hr0 : 1 ≤ rigids.length
          · have hb0 : rigids[0]?.isSome := by
              simp [List.getElem?_eq_getElem (show 0 < rigids.length by omega)]
            obtain ⟨b0, hb0⟩ := Option.isSome_iff_exists.mp hb0
            have hn0len : (TetraSpine.segmentCopy proto 0).nodes.length
                = proto.nodes.length := by
              simp [TetraSpine.segmentCopy_nodes]
            have hn03 : (TetraSpine.segmentCopy proto 0).nodes[3]?.isSome := by
              simp [List.getElem?_eq_getElem
                (show 3 < (TetraSpine.segmentCopy proto 0).nodes.length by omega)]
            obtain ⟨n03, hn03⟩ := Option.isSome_iff_exists.mp hn03
            simp only [addMarkersM, e0, e1, hb0, hb9, hn03, Option.some_bind, Option.none_bind]
          · have hb0 : rigids[0]? = none := by
              rw [List.getElem?_eq_none]
              omega
            simp only [addMarkersM, e0, hb0, Option.some_bind, Option.none_bind]
    rw [hnone]
    constructor
    · simp [hc]
    · simp [hc]

/-- Witness for C10 with N = 2 segments and 10 rigid bodies. -/
theorem c10_addMarkers_bounds_witness :
    4 ≤ (TgStructure.mk [dfltN, dfltN, dfltN, dfltN] [] [] []).nodes.length
    ∧ ((addMarkersM
          (TetraSpine.addSegments emptyS
            (TgStructure.mk [dfltN, dfltN, dfltN, dfltN] [] [] []) 0 2).children
          (List.replicate 10 ⟨⟨0, 0, 0⟩⟩)).isSome
        ↔ (2 ≤ 2 ∧ 10 ≤ (List.replicate 10 (⟨⟨0, 0, 0⟩⟩ : RigidBody)).length)) :=
  ⟨by decide, (c10_addMarkers_bounds (TgStructure.mk [dfltN, dfltN, dfltN, dfltN] [] [] [])
      0 2 (List.replicate 10 ⟨⟨0, 0, 0⟩⟩) (by decide)).1⟩

/-! ### Schema-driven generator (claims C6, C3) -/

/-- Folding addNode over a list appends the mapped nodes in order. -/
theorem foldl_addNode_gen {α : Type} (f : α → TgNode) (l : List α) :
    ∀ s : TgStructure,
      (l.foldl (fun acc x => addNodeS acc (f x)) s)
        = .mk (s.nodes ++ l.map f) s.pairs s.tags s.children := by
  induction l with
  | nil => intro s; cases s; simp
  | cons a l ih =>
    intro s
    rw [List.foldl_cons, ih]
    cases s
    simp [addNodeS]

/-- Folding addPair over a list appends the mapped pairs in order, resolving
indices against the unchanged node list. -/
theorem foldl_addPairIdx_gen {α : Type} (g1 g2 : α → Int) (tag : String) (l : List α) :
    ∀ s : TgStructure,
      (l.foldl (fun acc x => addPairIdx acc (g1 x) (g2 x) tag) s)
        = .mk s.nodes
            (s.pairs ++ l.map (fun x => ⟨posAt s.nodes (g1 x), posAt s.nodes (g2 x), [tag]⟩))
            s.tags s.children := by
  induction l with
  | nil => intro s; cases s; simp
  | cons a l ih =>
    intro s
    rw [List.foldl_cons, ih]
    cases s
    simp [addPairIdx]

/-- A structure without children contributes exactly its own pairs. -/
theorem allPairsOf_no_children (ns : List TgNode) (ps : List TgPair) (ts : List String) :
    allPairsOf (.mk ns ps ts []) = ps := by
  rw [allPairsOf]
  simp

/-- The label rod matches the tag set of a rod edge. -/
theorem lm_rod_rod : labelMatches ("rod") [("rod")] = true := by decide

/-- The label rod does not match the tag set of a muscle edge. -/
theorem lm_rod_muscle : labelMatches ("rod") [("muscle")] = false := by decide

/-- The label muscle matches the tag set of a muscle edge. -/
theorem lm_muscle_muscle : labelMatches ("muscle") [("muscle")] = true := by decide

/-- Resolution of a rod edge against the registered spec. -/
theorem resolve_spec_rod (r d st da p : ℚ) :
    resolve (Tensegrity.tensegritySpec r d st da p) [("rod")]
      = some ⟨BKind.rigid, [r, d]⟩ := by
  rw [Tensegrity.tensegritySpec, resolve]
  simp [lm_rod_rod]

/-- Resolution of a muscle edge against the registered spec. -/
theorem resolve_spec_muscle (r d st da p : ℚ) :
    resolve (Tensegrity.tensegritySpec r d st da p) [("muscle")]
      = some ⟨BKind.actuator, [st, da, p]⟩ := by
  rw [Tensegrity.tensegritySpec, resolve]
  simp [lm_rod_muscle, resolve, lm_muscle_muscle]

/-- Resolving a list of pairs that all carry the same tag set. -/
theorem resolvePairs_const (reg : List (String × Builder)) (b : Builder) (t0 : List String)
    (hb : resolve reg t0 = some b) :
    ∀ (l : List TgPair), (∀ p ∈ l, p.tags = t0) →
      resolvePairs reg l = some (l.map (fun p => (b, p))) := by
  intro l
  induction l with
  | nil => intro _; rfl
  | cons p ps ih =>
    intro h
    have hp : p.tags = t0 := h p (by simp)
    rw [resolvePairs, hp, hb, ih (fun q hq => h q (by simp [hq]))]
    rfl

/-- Resolution distributes over concatenation of edge lists. -/
theorem resolvePairs_append (reg : List (String × Builder)) :
    ∀ (l1 l2 : List TgPair) (r1 r2 : List (Builder × TgPair)),
      resolvePairs reg l1 = some r1 → resolvePairs reg l2 = some r2 →
      resolvePairs reg (l1 ++ l2) = some (r1 ++ r2) := by
  intro l1
  induction l1 with
  | nil =>
    intro l2 r1 r2 h1 h2
    rw [resolvePairs] at h1
    cases h1
    simpa using h2
  | cons p ps ih =>
    intro l2 r1 r2 h1 h2
    rw [resolvePairs] at h1
    cases hres : resolve reg p.tags with
    | none => rw [hres] at h1; simp at h1
    | some b =>
      rw [hres] at h1
      cases hrest : resolvePairs reg ps with
      | none => rw [hrest] at h1; simp at h1
      | some rest =>
        rw [hrest] at h1
        simp at h1
        rw [List.cons_append, resolvePairs, hres, ih l2 rest r2 hrest h2]
        rw [← h1]
        simp

/-- Filtering a mapped list by a predicate constantly true on the image. -/
theorem filter_map_const_true {α β : Type} (f : α → β) (p : β → Bool) (l : List α)
    (h : ∀ x, p (f x) = true) : (l.map f).filter p = l.map f := by
  induction l with
  | nil => rfl
  | cons a l ih => simp [List.filter_cons, h a, ih]

/-- Filtering a mapped list by a predicate constantly false on the image. -/
theorem filter_map_const_false {α β : Type} (f : α → β) (p : β → Bool) (l : List α)
    (h : ∀ x, p (f x) = false) : (l.map f).filter p = [] := by
  induction l with
  | nil => rfl
  | cons a l ih => simp [List.filter_cons, h a, ih]

/-- Mapping a constant function is a replicate. -/
theorem map_const_replicate {α β : Type} (l : List α) (b : β) :
    l.map (fun _ => b) = List.replicate l.length b := by
  induction l with
  | nil => rfl
  | cons a l ih => simp [ih, List.replicate_succ]

namespace Tensegrity

/-- addNodes on the empty structure yields the document's node list. -/
theorem addNodes_eq (root : JVal) :
    addNodes emptyS root = .mk (baseNodes root) [] [] [] := by
  rw [addNodes, foldl_addNode_gen]
  simp [emptyS, baseNodes]

/-- The assembled structure: document nodes, then rod pairs, then muscle
pairs, with 1-based indices converted by subtracting 1. -/
theorem structure_eq (root : JVal) :
    addMuscles (addRods (addNodes emptyS root) root) root
      = .mk (baseNodes root) (rodPairs root ++ musclePairs root) [] [] := by
  rw [addNodes_eq, addRods, foldl_addPairIdx_gen]
  simp only [nodes_mk, pairs_mk, tags_mk, children_mk, List.nil_append]
  rw [addMuscles, foldl_addPairIdx_gen]
  simp only [nodes_mk, pairs_mk, tags_mk, children_mk]
  rw [rodPairs, musclePairs]

/-- The resolution engine on the assembled, translated structure: every rod
edge resolves to the rigid builder and every muscle edge to the actuator
builder, yielding one component per document entry, with its parameters. -/
theorem buildModel_eq (root : JVal) :
    buildModel
        (tensegritySpec (radiusOf root) (densityOf root) (stiffnessOf root)
          (dampingOf root) (pretensionOf root))
        (moveS ⟨0, 10, 0⟩ (.mk (baseNodes root) (rodPairs root ++ musclePairs root) [] []))
      = some ⟨(rodPairs root).map (fun p =>
                ⟨[radiusOf root, densityOf root], addV p.fst ⟨0, 10, 0⟩, addV p.snd ⟨0, 10, 0⟩⟩),
              (musclePairs root).map (fun p =>
                ⟨[stiffnessOf root, dampingOf root, pretensionOf root],
                 addV p.fst ⟨0, 10, 0⟩, addV p.snd ⟨0, 10, 0⟩⟩)⟩ := by
  have hall : allPairsOf
      (moveS ⟨0, 10, 0⟩ (.mk (baseNodes root) (rodPairs root ++ musclePairs root) [] []))
      = (rodPairs root).map (movePair ⟨0, 10, 0⟩)
        ++ (musclePairs root).map (movePair ⟨0, 10, 0⟩) := by
    rw [moveS_mk]
    simp only [List.map_nil]
    rw [allPairsOf_no_children]
    simp [List.map_append]
  have hrodtags : ∀ p ∈ (rodPairs root).map (movePair ⟨0, 10, 0⟩), p.tags = [("rod")] := by
    intro p hp
    obtain ⟨q, hq, rfl⟩ := List.mem_map.mp hp
    obtain ⟨r, _, rfl⟩ := List.mem_map.mp hq
    rfl
  have hmusctags : ∀ p ∈ (musclePairs root).map (movePair ⟨0, 10, 0⟩),
      p.tags = [("muscle")] := by
    intro p hp
    obtain ⟨q, hq, rfl⟩ := List.mem_map.mp hp
    obtain ⟨r, _, rfl⟩ := List.mem_map.mp hq
    rfl
  have hres : resolvePairs
      (tensegritySpec (radiusOf root) (densityOf root) (stiffnessOf root)
        (dampingOf root) (pretensionOf root))
      ((rodPairs root).map (movePair ⟨0, 10, 0⟩)
        ++ (musclePairs root).map (movePair ⟨0, 10, 0⟩))
      = some (((rodPairs root).map (movePair ⟨0, 10, 0⟩)).map
                (fun p => (⟨BKind.rigid, [radiusOf root, densityOf root]⟩, p))
              ++ ((musclePairs root).map (movePair ⟨0, 10, 0⟩)).map
                (fun p => (⟨BKind.actuator,
                    [stiffnessOf root, dampingOf root, pretensionOf root]⟩, p))) := by
    exact resolvePairs_append _ _ _ _ _
      (resolvePairs_const _ _ _ (resolve_spec_rod _ _ _ _ _) _ hrodtags)
      (resolvePairs_const _ _ _ (resolve_spec_muscle _ _ _ _ _) _ hmusctags)
  rw [buildModel, hall, hres]
  simp only [List.filter_append]
  rw [filter_map_const_true _ _ _ (fun x => rfl), filter_map_const_false _ _ _ (fun x => rfl)]
  rw [filter_map_const_false _ _ _ (fun x => rfl), filter_map_const_true _ _ _ (fun x => rfl)]
  simp [List.map_map, Function.comp, movePair]

/-- The complete behaviour of setup on a document that parsed. -/
theorem setup_eq (root : JVal) :
    setup (some root)
      = some ⟨⟨(rodPairs root).map (fun p =>
                  ⟨[radiusOf root, densityOf root],
                   addV p.fst ⟨0, 10, 0⟩, addV p.snd ⟨0, 10, 0⟩⟩),
               (musclePairs root).map (fun p =>
                  ⟨[stiffnessOf root, dampingOf root, pretensionOf root],
                   addV p.fst ⟨0, 10, 0⟩, addV p.snd ⟨0, 10, 0⟩⟩)⟩,
              moveS ⟨0, 10, 0⟩ (.mk (baseNodes root) (rodPairs root ++ musclePairs root) [] []),
              tensegritySpec (radiusOf root) (densityOf root) (stiffnessOf root)
                (dampingOf root) (pretensionOf root),
              radiusOf root, densityOf root, stiffnessOf root, dampingOf root,
              pretensionOf root⟩ := by
  have hr : (((root.get ("parameters")).get ("rods")).get ("radius")).asDouble
      = radiusOf root := rfl
  have hd : (((root.get ("parameters")).get ("rods")).get ("density")).asDouble
      = densityOf root := rfl
  have hst : (((root.get ("parameters")).get ("muscles")).get ("stiffness")).asDouble
      = stiffnessOf root := rfl
  have hda : (((root.get ("parameters")).get ("muscles")).get ("damping")).asDouble
      = dampingOf root := rfl
  have hpr : (((root.get ("parameters")).get ("muscles")).get ("pretension")).asDouble
      = pretensionOf root := rfl
  simp only [setup]
  rw [hr, hd, hst, hda, hpr, structure_eq, buildModel_eq]

end Tensegrity

/-- C6: for every parseable schema document with K node entries, R rod
entries, and M muscle entries, setup builds one top-level Graph with exactly
K nodes in document order, R rod edges and M muscle edges whose 1-based
document indices become 0-based by subtracting 1, registers exactly two
Builders configured from the global parameters, and yields a Model with K
anchor points, R rigid-link components and M actuator components carrying
those parameters. -/
theorem c6_schema_roundtrip (root : JVal) :
    (Tensegrity.addMuscles (Tensegrity.addRods (Tensegrity.addNodes emptyS root) root) root
        = .mk (Tensegrity.baseNodes root)
            (Tensegrity.rodPairs root ++ Tensegrity.musclePairs root) [] [])
    ∧ (Tensegrity.baseNodes root).length
        = (jarr ((root.get ("structure")).get ("nodes"))).length
    ∧ (Tensegrity.rodPairs root).length
        = (jarr ((root.get ("structure")).get ("rods"))).length
    ∧ (Tensegrity.musclePairs root).length
        = (jarr ((root.get ("structure")).get ("muscles"))).length
    ∧ (Tensegrity.tensegritySpec (Tensegrity.radiusOf root) (Tensegrity.densityOf root)
        (Tensegrity.stiffnessOf root) (Tensegrity.dampingOf root)
        (Tensegrity.pretensionOf root)).length = 2
    ∧ (Tensegrity.setup (some root)).map (fun o => o.struc.nodes.length)
        = some (jarr ((root.get ("structure")).get ("nodes"))).length
    ∧ (Tensegrity.setup (some root)).map (fun o => o.model.rigids.length)
        = some (jarr ((root.get ("structure")).get ("rods"))).length
    ∧ (Tensegrity.setup (some root)).map (fun o => o.model.actuators.length)
        = some (jarr ((root.get ("structure")).get ("muscles"))).length
    ∧ (Tensegrity.setup (some root)).map (fun o => o.model.rigids.map (fun c => c.cfg))
        = some (List.replicate (jarr ((root.get ("structure")).get ("rods"))).length
            [Tensegrity.radiusOf root, Tensegrity.densityOf root])
    ∧ (Tensegrity.setup (some root)).map (fun o => o.model.actuators.map (fun c => c.cfg))
        = some (List.replicate (jarr ((root.get ("structure")).get ("muscles"))).length
            [Tensegrity.stiffnessOf root, Tensegrity.dampingOf root,
             Tensegrity.pretensionOf root]) := by
  refine ⟨Tensegrity.structure_eq root, by simp [Tensegrity.baseNodes],
    by simp [Tensegrity.rodPairs], by simp [Tensegrity.musclePairs], rfl, ?_, ?_, ?_, ?_, ?_⟩
  · rw [Tensegrity.setup_eq]
    simp [Tensegrity.baseNodes]
  · rw [Tensegrity.setup_eq]
    simp [Tensegrity.rodPairs]
  · rw [Tensegrity.setup_eq]
    simp [Tensegrity.musclePairs]
  · rw [Tensegrity.setup_eq]
    simp [Tensegrity.rodPairs, List.map_map, Function.comp_def, map_const_replicate]
  · rw [Tensegrity.setup_eq]
    simp [Tensegrity.musclePairs, List.map_map, Function.comp_def, map_const_replicate]

/-- C3 counterexample: a document that parses but lacks the required
parameters.rods.radius field is not rejected — setup builds a Model, reading
the missing field as 0. -/
theorem c3_missing_field_not_fatal :
    ((((Tensegrity.cexDoc.get ("parameters")).get ("rods")).get ("radius")) = JVal.null)
    ∧ (Tensegrity.setup (some Tensegrity.cexDoc)).isSome = true
    ∧ (Tensegrity.setup (some Tensegrity.cexDoc)).map (fun o => o.radius) = some 0 := by
  refine ⟨rfl, ?_, ?_⟩
  · rw [Tensegrity.setup_eq]
    rfl
  · rw [Tensegrity.setup_eq]
    rfl

/-- C3 amended: only a malformed document (parse failure) is fatal — setup
reports and aborts with no Model built; a document that parses is never
rejected for a missing numeric field: each absent field reads as 0 through
the null default and construction proceeds to a fully built Model. -/
theorem c3_parse_failure_aborts (root : JVal) :
    (Tensegrity.setup none = none)
    ∧ (Tensegrity.setup (some root)).isSome = true
    ∧ (Tensegrity.setup (some root)).map (fun o => o.radius)
        = some ((((root.get ("parameters")).get ("rods")).get ("radius")).asDouble)
    ∧ JVal.null.asDouble = 0 := by
  refine ⟨rfl, ?_, ?_, rfl⟩
  · rw [Tensegrity.setup_eq]
    rfl
  · rw [Tensegrity.setup_eq]
    rfl

/-! ### Storage frame property of clone followed by transform (claim C8) -/

/-- A successful lookup is a membership. -/
theorem hlookup_mem : ∀ (h : Heap) (i : Nat) (d : SData),
    hlookup h i = some d → (i, d) ∈ h := by
  intro h
  induction h with
  | nil => intro i d hd; simp [hlookup] at hd
  | cons p t ih =>
    intro i d hd
    obtain ⟨j, e⟩ := p
    rw [hlookup] at hd
    by_cases hji : j = i
    · rw [if_pos hji] at hd
      cases hd
      subst hji
      simp
    · rw [if_neg hji] at hd
      simp [ih i d hd]

/-- Appending entries with fresh addresses does not disturb lookups. -/
theorem hlookup_append_of_not_mem : ∀ (h h2 : Heap) (i : Nat),
    (∀ p ∈ h2, p.1 ≠ i) → hlookup (h ++ h2) i = hlookup h i := by
  intro h
  induction h with
  | nil =>
    intro h2 i hne
    induction h2 with
    | nil => rfl
    | cons q t ih2 =>
      obtain ⟨j, e⟩ := q
      simp only [List.nil_append, hlookup]
      rw [if_neg (hne (j, e) (by simp))]
      exact ih2 (fun p hp => hne p (by simp [hp]))
  | cons q t ih =>
    intro h2 i hne
    obtain ⟨j, e⟩ := q
    simp only [List.cons_append, hlookup]
    by_cases hji : j = i
    · rw [if_pos hji, if_pos hji]
    · rw [if_neg hji, if_neg hji]
      exact ih h2 i hne

/-- Updating one address does not disturb lookups of other addresses. -/
theorem hlookup_update_ne : ∀ (h : Heap) (i : Nat) (d : SData) (j : Nat),
    j ≠ i → hlookup (hupdate h i d) j = hlookup h j := by
  intro h
  induction h with
  | nil => intro i d j _; rfl
  | cons q t ih =>
    intro i d j hji
    obtain ⟨k, e⟩ := q
    rw [hupdate]
    simp only [List.map_cons]
    by_cases hki : k = i
    · simp only [hki, if_true]
      rw [hlookup, hlookup]
      rw [if_neg (by omega), if_neg (by omega)]
      exact ih i d j hji
    · simp only [hki, if_false]
      rw [hlookup, hlookup]
      by_cases hkj : k = j
      · rw [if_pos hkj, if_pos hkj]
      · rw [if_neg hkj, if_neg hkj]
        exact ih i d j hji

/-- Translating the data at an address preserves high-closedness, since the
children addresses are unchanged. -/
theorem HighClosed_update (n : Nat) (h : Heap) (i : Nat) (d : SData)
    (a : List TgNode) (b : List TgPair) (c : List String)
    (hhc : HighClosed n h) (hd : hlookup h i = some d) :
    HighClosed n (hupdate h i ⟨a, b, c, d.kids⟩) := by
  intro p hp hpn k hk
  rw [hupdate] at hp
  obtain ⟨q, hq, hqe⟩ := List.mem_map.mp hp
  by_cases hqi : q.1 = i
  · rw [if_pos hqi] at hqe
    have hp1 : p.1 = i := by rw [← hqe]
    have hkd : k ∈ d.kids := by
      rw [← hqe] at hk
      exact hk
    exact hhc (i, d) (hlookup_mem h i d hd) (by rw [hp1] at hpn; exact hpn) k hkd
  · rw [if_neg hqi] at hqe
    rw [← hqe] at hpn hk
    exact hhc q hq hpn k hk

/-- Translating subtrees rooted at high addresses in a high-closed store
leaves every lookup below the bound untouched. -/
theorem moveL_frame (v : Vec3) (n : Nat) :
    ∀ (f : Nat) (h : Heap) (roots : List Nat) (h2 : Heap),
      HighClosed n h → (∀ r ∈ roots, n ≤ r) → moveL v f h roots = some h2 →
      (∀ j, j < n → hlookup h2 j = hlookup h j) ∧ HighClosed n h2 := by
  intro f
  induction f with
  | zero =>
    intro h roots h2 hhc hroots hm
    cases roots with
    | nil =>
      rw [moveL] at hm
      cases hm
      exact ⟨fun j _ => rfl, hhc⟩
    | cons i is =>
      rw [moveL] at hm
      simp at hm
  | succ f ih =>
    intro h roots h2 hhc hroots hm
    cases roots with
    | nil =>
      rw [moveL] at hm
      cases hm
      exact ⟨fun j _ => rfl, hhc⟩
    | cons i is =>
      rw [moveL] at hm
      cases hd : hlookup h i with
      | none => rw [hd] at hm; simp at hm
      | some d =>
        rw [hd] at hm
        dsimp only at hm
        have hin : n ≤ i := hroots i (by simp)
        have hkids : ∀ k ∈ d.kids, n ≤ k :=
          fun k hk => hhc (i, d) (hlookup_mem h i d hd) hin k hk
        have hhc1 : HighClosed n
            (hupdate h i ⟨d.nodes.map (moveNode v), d.pairs.map (movePair v),
              d.tags, d.kids⟩) :=
          HighClosed_update n h i d _ _ _ hhc hd
        cases hm1 : moveL v f
            (hupdate h i ⟨d.nodes.map (moveNode v), d.pairs.map (movePair v),
              d.tags, d.kids⟩) d.kids with
        | none => rw [hm1] at hm; simp at hm
        | some hmid =>
          rw [hm1] at hm
          obtain ⟨hl1, hhc2⟩ := ih _ d.kids hmid hhc1 hkids hm1
          obtain ⟨hl2, hhc3⟩ := ih hmid is h2 hhc2
            (fun r hr => hroots r (by simp [hr])) hm
          refine ⟨?_, hhc3⟩
          intro j hj
          rw [hl2 j hj, hl1 j hj, hlookup_update_ne h i _ j (by omega)]

/-- Cloning only appends entries at fresh addresses, whose children are also
fresh, and returns fresh clone roots. -/
theorem cloneL_spec :
    ∀ (f : Nat) (s : HState) (roots : List Nat) (s3 : HState) (cs : List Nat),
      cloneL f s roots = some (s3, cs) →
      (∃ d, s3.heap = s.heap ++ d
         ∧ (∀ p ∈ d, s.next ≤ p.1 ∧ p.1 < s3.next ∧ ∀ k ∈ p.2.kids, s.next ≤ k))
      ∧ s.next ≤ s3.next
      ∧ (∀ c ∈ cs, s.next ≤ c ∧ c < s3.next) := by
  intro f
  induction f with
  | zero =>
    intro s roots s3 cs hc
    cases roots with
    | nil =>
      rw [cloneL] at hc
      cases hc
      exact ⟨⟨[], by simp, by simp⟩, Nat.le_refl _, by simp⟩
    | cons i is =>
      rw [cloneL] at hc
      simp at hc
  | succ f ih =>
    intro s roots s3 cs hc
    cases roots with
    | nil =>
      rw [cloneL] at hc
      cases hc
      exact ⟨⟨[], by simp, by simp⟩, Nat.le_refl _, by simp⟩
    | cons i is =>
      rw [cloneL] at hc
      cases hd : hlookup s.heap i with
      | none => rw [hd] at hc; simp at hc
      | some d =>
        rw [hd] at hc
        dsimp only at hc
        cases hc1 : cloneL f s d.kids with
        | none => rw [hc1] at hc; simp at hc
        | some pr1 =>
          obtain ⟨s1, cs1⟩ := pr1
          rw [hc1] at hc
          dsimp only at hc
          cases hc2 : cloneL f
              ⟨s1.heap ++ [(s1.next, ⟨d.nodes, d.pairs, d.tags, cs1⟩)], s1.next + 1⟩ is with
          | none => rw [hc2] at hc; simp at hc
          | some pr2 =>
            obtain ⟨s3x, rest⟩ := pr2
            rw [hc2] at hc
            dsimp only at hc
            obtain ⟨⟨d1, hd1, hb1⟩, hnext1, hcs1⟩ := ih s d.kids s1 cs1 hc1
            obtain ⟨⟨d2, hd2, hb2⟩, hnext2, hrest⟩ := ih
              ⟨s1.heap ++ [(s1.next, ⟨d.nodes, d.pairs, d.tags, cs1⟩)], s1.next + 1⟩
              is s3x rest hc2
            dsimp at hnext2
            cases hc
            refine ⟨⟨d1 ++ [(s1.next, ⟨d.nodes, d.pairs, d.tags, cs1⟩)] ++ d2, ?_, ?_⟩,
              by omega, ?_⟩
            · rw [hd2]
              dsimp only
              rw [hd1]
              simp [List.append_assoc]
            · intro p hp
              rcases List.mem_append.mp hp with hp12 | hpd2
              · rcases List.mem_append.mp hp12 with hpd1 | hpmid
                · obtain ⟨ha, hb, hk⟩ := hb1 p hpd1
                  exact ⟨ha, by omega, hk⟩
                · have hpe : p = (s1.next, ⟨d.nodes, d.pairs, d.tags, cs1⟩) := by
                    simpa using hpmid
                  subst hpe
                  refine ⟨by omega, by omega, ?_⟩
                  intro k hk
                  exact (hcs1 k hk).1
              · obtain ⟨ha, hb, hk⟩ := hb2 p hpd2
                dsimp at ha hb
                refine ⟨by omega, hb, ?_⟩
                intro k hkk
                have h5 := hk k hkk
                dsimp at h5
                omega
            · intro c hcmem
              rcases List.mem_cons.mp hcmem with hceq | hcrest
              · subst hceq
                exact ⟨by omega, by omega⟩
              · obtain ⟨ha, hb⟩ := hrest c hcrest
                dsimp at ha
                exact ⟨by omega, hb⟩

/-- Reading trees rooted below the bound only consults addresses below the
bound, so it is invariant under changes above it. -/
theorem readL_congr (n : Nat) :
    ∀ (f : Nat) (h h2 : Heap) (roots : List Nat),
      Wf n h → (∀ j, j < n → hlookup h2 j = hlookup h j) → (∀ i ∈ roots, i < n) →
      readL f h2 roots = readL f h roots := by
  intro f
  induction f with
  | zero =>
    intro h h2 roots _ _ _
    cases roots with
    | nil => rfl
    | cons i is => rfl
  | succ f ih =>
    intro h h2 roots hwf hl hroots
    cases roots with
    | nil => rfl
    | cons i is =>
      rw [readL, readL, hl i (hroots i (by simp))]
      cases hd : hlookup h i with
      | none => rfl
      | some d =>
        dsimp only
        have hkids : ∀ k ∈ d.kids, k < n :=
          (hwf (i, d) (hlookup_mem h i d hd)).2
        rw [ih h h2 d.kids hwf hl hkids,
            ih h h2 is hwf hl (fun x hx => hroots x (by simp [hx]))]

/-- In a well-formed store all addresses of a subtree are below the bound. -/
theorem idsL_lt (n : Nat) :
    ∀ (f : Nat) (h : Heap) (roots : List Nat) (l : List Nat),
      Wf n h → (∀ i ∈ roots, i < n) → idsL f h roots = some l →
      ∀ a ∈ l, a < n := by
  intro f
  induction f with
  | zero =>
    intro h roots l _ _ hi
    cases roots with
    | nil => rw [idsL] at hi; cases hi; simp
    | cons i is => rw [idsL] at hi; simp at hi
  | succ f ih =>
    intro h roots l hwf hroots hi
    cases roots with
    | nil => rw [idsL] at hi; cases hi; simp
    | cons i is =>
      rw [idsL] at hi
      cases hd : hlookup h i with
      | none => rw [hd] at hi; simp at hi
      | some d =>
        rw [hd] at hi
        dsimp only at hi
        cases ha : idsL f h d.kids with
        | none => rw [ha] at hi; simp at hi
        | some la =>
          rw [ha] at hi
          cases hb : idsL f h is with
          | none => rw [hb] at hi; simp at hi
          | some lb =>
            rw [hb] at hi
            dsimp only at hi
            cases hi
            intro a hamem
            rcases List.mem_cons.mp hamem with h1 | h1
            · subst h1; exact hroots a (by simp)
            · rcases List.mem_append.mp h1 with h2 | h2
              · exact ih h d.kids la hwf
                  ((hwf (i, d) (hlookup_mem h i d hd)).2) ha a h2
              · exact ih h is lb hwf
                  (fun x hx => hroots x (by simp [hx])) hb a h2

/-- In a high-closed store all addresses of a subtree rooted high are high. -/
theorem idsL_ge (n : Nat) :
    ∀ (f : Nat) (h : Heap) (roots : List Nat) (l : List Nat),
      HighClosed n h → (∀ i ∈ roots, n ≤ i) → idsL f h roots = some l →
      ∀ a ∈ l, n ≤ a := by
  intro f
  induction f with
  | zero =>
    intro h roots l _ _ hi
    cases roots with
    | nil => rw [idsL] at hi; cases hi; simp
    | cons i is => rw [idsL] at hi; simp at hi
  | succ f ih =>
    intro h roots l hhc hroots hi
    cases roots with
    | nil => rw [idsL] at hi; cases hi; simp
    | cons i is =>
      rw [idsL] at hi
      cases hd : hlookup h i with
      | none => rw [hd] at hi; simp at hi
      | some d =>
        rw [hd] at hi
        dsimp only at hi
        cases ha : idsL f h d.kids with
        | none => rw [ha] at hi; simp at hi
        | some la =>
          rw [ha] at hi
          cases hb : idsL f h is with
          | none => rw [hb] at hi; simp at hi
          | some lb =>
            rw [hb] at hi
            dsimp only at hi
            cases hi
            intro a hamem
            rcases List.mem_cons.mp hamem with h1 | h1
            · subst h1; exact hroots a (by simp)
            · rcases List.mem_append.mp h1 with h2 | h2
              · exact ih h d.kids la hhc
                  (hhc (i, d) (hlookup_mem h i d hd) (hroots i (by simp))) ha a h2
              · exact ih h is lb hhc
                  (fun x hx => hroots x (by simp [hx])) hb a h2


/-- C8: cloning a graph and then applying a rigid transform to the clone
leaves the original completely unchanged — the tree read back at the
original address is identical — and the clone shares no storage with the
original: their address sets are disjoint. -/
theorem c8_clone_transform_frame (s : HState) (g : Nat) (v : Vec3)
    (f1 f2 f3 f4 f5 : Nat) (s2 : HState) (cs : List Nat) (h3 : Heap)
    (hwf : Wf s.next s.heap) (hg : g < s.next)
    (hclone : cloneL f1 s [g] = some (s2, cs))
    (hmove : moveL v f2 s2.heap cs = some h3) :
    (readL f3 h3 [g] = readL f3 s.heap [g])
    ∧ (∀ io ic, idsL f4 s.heap [g] = some io → idsL f5 s2.heap cs = some ic →
        ∀ a ∈ io, ∀ b ∈ ic, a ≠ b) := by
  obtain ⟨⟨dd, hheap, hbounds⟩, hnext, hcs⟩ := cloneL_spec f1 s [g] s2 cs hclone
  have hlow : ∀ j, j < s.next → hlookup s2.heap j = hlookup s.heap j := by
    intro j hj
    rw [hheap]
    refine hlookup_append_of_not_mem _ _ _ ?_
    intro p hp
    have := (hbounds p hp).1
    omega
  have hhc : HighClosed s.next s2.heap := by
    intro p hp hpn k hk
    rw [hheap] at hp
    rcases List.mem_append.mp hp with hmem | hmem
    · have := (hwf p hmem).1
      omega
    · exact (hbounds p hmem).2.2 k hk
  have hcs2 : ∀ c ∈ cs, s.next ≤ c := fun c hcm => (hcs c hcm).1
  obtain ⟨hmf, hhc3⟩ := moveL_frame v s.next f2 s2.heap cs h3 hhc hcs2 hmove
  constructor
  · have hcomb : ∀ j, j < s.next → hlookup h3 j = hlookup s.heap j := by
      intro j hj
      rw [hmf j hj, hlow j hj]
    exact readL_congr s.next f3 s.heap h3 [g] hwf hcomb (by simpa using hg)
  · intro io ic hio hic a ha b hb
    have ha2 : a < s.next := idsL_lt s.next f4 s.heap [g] io hwf (by simpa using hg) hio a ha
    have hb2 : s.next ≤ b := idsL_ge s.next f5 s2.heap cs ic hhc hcs2 hic b hb
    omega



/-- Witness for C8 on a concrete two-structure store. -/
theorem c8_clone_transform_frame_witness :
    Wf c8s0.next c8s0.heap ∧ 0 < c8s0.next
    ∧ cloneL 9 c8s0 [0] = some (c8s2, c8cs)
    ∧ moveL c8v 9 c8s2.heap c8cs = some c8h3
    ∧ ((readL 9 c8h3 [0] = readL 9 c8s0.heap [0])
       ∧ (∀ io ic, idsL 9 c8s0.heap [0] = some io → idsL 9 c8s2.heap c8cs = some ic →
           ∀ a ∈ io, ∀ b ∈ ic, a ≠ b)) :=
  ⟨by unfold Wf; decide, by decide, by decide, by decide,
   c8_clone_transform_frame c8s0 0 c8v 9 9 9 9 9 c8s2 c8cs c8h3 (by unfold Wf; decide)
     (by decide) (by decide) (by decide)⟩
